import Mathlib

/-!
Verification of core claims about the trust-dns (hickory-dns fork) repository.

The development shallowly embeds the Rust sources:
  * `crates/proto/src/rr/rr_set.rs`   (RecordSet, insert, remove, record iteration)
  * `crates/proto/src/op/message.rs`  (Message, read_records, emit_message_parts,
                                       update_header_counts, max_payload, decode/encode)
  * `crates/server/src/authority/authority.rs` (LookupControlFlow)
and, where a claim depends on repository code that is not part of the sources
(the catalog chain, the Edns/Header leaf codecs, the SOA rdata), models that part
from the specification, with a doc comment saying so.

Machine integers are represented as `Nat`; all values that the claims touch stay
far below the relevant moduli, and the one place where 32-bit wraparound matters
(RFC 1982 serial arithmetic) is made explicit with `% 2 ^ 32`.
-/

namespace TrustDns

/-- Record types, from the subset of `RecordType` the embedded code inspects.
All record types that none of the embedded code distinguishes are collapsed
into the listed data-bearing constructors. -/
inductive RecordType where
  | A
  | AAAA
  | ANAME
  | ANY
  | CNAME
  | NS
  | OPT
  | SIG
  | SOA
  | TSIG
  | TXT
  deriving DecidableEq, Repr

/-- DNS classes, from `DNSClass`; the `OPT` variant carries the EDNS
requestor payload size, as in the source. -/
inductive DNSClass where
  | IN
  | CH
  | HS
  | NONE
  | ANY
  | OPT (payload : Nat)
  deriving DecidableEq, Repr

/-- Modelled from the spec: `Name` (crates/proto/src/rr/domain) is not under the
sampled sources.  Per the spec data model a name is an ordered sequence of
labels; labels are kept as plain strings (case handling is irrelevant to every
claim settled here). -/
def Name := List String
  deriving DecidableEq, Repr, Inhabited

/-- Modelled from the spec: the SOA rdata (crates/proto/src/rr/rdata/soa.rs) is
not under the sampled sources.  It is the RFC 1035 SOA record data; `serial` is
the 32-bit zone serial number returned by the `serial()` accessor that
`RecordSet::insert` compares. -/
structure SOAData where
  mname : Name
  rname : Name
  serial : Nat
  refresh : Nat
  retry : Nat
  expire : Nat
  minimum : Nat
  deriving DecidableEq, Repr

/-- Record data, from `RData`: a sum over record types.  Only the variants the
embedded code distinguishes are separated; `other` stands for the data of every
remaining registered type.  `Update0` is the empty rdata used for records that
carry only a type (e.g. in UPDATE prerequisites), as in the source. -/
inductive RData where
  | A (address : Nat)
  | AAAA (address : Nat)
  | ANAME (target : Name)
  | CNAME (target : Name)
  | NS (target : Name)
  | SOA (soa : SOAData)
  | OPT (options : List (Nat × Nat))
  | SIG (bytes : List Nat)
  | TSIG (bytes : List Nat)
  | TXT (text : List String)
  | Update0 (rt : RecordType)
  deriving DecidableEq, Repr

/-- `RData::record_type()`: the record type determined by the data. -/
def RData.recType : RData → RecordType
  | .A _ => .A
  | .AAAA _ => .AAAA
  | .ANAME _ => .ANAME
  | .CNAME _ => .CNAME
  | .NS _ => .NS
  | .SOA _ => .SOA
  | .OPT _ => .OPT
  | .SIG _ => .SIG
  | .TSIG _ => .TSIG
  | .TXT _ => .TXT
  | .Update0 rt => rt

/-- A resource record, from `Record`: name, class, ttl and data.  As in the
source, the record type is derived from the data. -/
structure Record where
  name : Name
  dnsClass : DNSClass
  ttl : Nat
  data : RData
  deriving DecidableEq, Repr

instance : Inhabited Record :=
  ⟨{ name := [], dnsClass := .IN, ttl := 0, data := .Update0 .ANY }⟩

/-- `Record::record_type()`. -/
def Record.recordType (r : Record) : RecordType :=
  r.data.recType

/-- A set of resource records for one owner name and type, from `RecordSet`. -/
structure RecordSet where
  name : Name
  recordType : RecordType
  dnsClass : DNSClass
  ttl : Nat
  records : List Record
  rrsigs : List Record
  serial : Nat
  deriving DecidableEq, Repr

namespace RecordSet

/-- `RecordSet::new`. -/
def new (name : Name) (recordType : RecordType) (serial : Nat) : RecordSet :=
  { name, recordType, dnsClass := .IN, ttl := 0, records := [], rrsigs := [], serial }

/-- `RecordSet::updated`: record the serial of the mutation and invalidate the
signatures. -/
def updated (rs : RecordSet) (serial : Nat) : RecordSet :=
  { rs with serial := serial, rrsigs := [] }

/-- `Vec::swap_remove(i)`: remove the element at index `i`, moving the last
element into its place. -/
def swapRemove (l : List Record) (i : Nat) : List Record :=
  match l.getLast? with
  | none => l
  | some last => (l.set i last).dropLast

/-- The singleton-type prelude of `RecordSet::insert` (the `match
record.record_type()` block).  Result: `none` models the `assert!` panic,
`some (.inl b)` an early `return b`, and `some (.inr rs)` falling through to
the general insertion path with the (possibly cleared) set `rs`. -/
def insertSingletonStep (rs : RecordSet) (record : Record) :
    Option (Bool ⊕ RecordSet) :=
  match record.recordType with
  | .SOA =>
    if rs.records.length > 1 then none
    else some <|
      match rs.records.head? with
      | some soaRecord =>
        match soaRecord.data with
        | .SOA existingSoa =>
          match record.data with
          | .SOA newSoa =>
            if newSoa.serial ≤ existingSoa.serial then .inl false
            else .inr { rs with records := [] }
          | _ => .inl false
        | _ => .inl false
      | none => .inr { rs with records := [] }
  | .CNAME | .ANAME =>
    if rs.records.length > 1 then none
    else some (.inr { rs with records := [] })
  | _ => some (.inr rs)

/-- The `for i in to_replace` loop of `RecordSet::insert`.  `.inl` models an
early `return false` (with the state at that point), `.inr` is the state and
the `replaced` flag after the loop finished. -/
def insertLoop (record : Record) (serial : Nat) :
    List Nat → RecordSet → Bool → ((Bool × RecordSet) ⊕ (RecordSet × Bool))
  | [], rs, replaced => .inr (rs, replaced)
  | i :: rest, rs, replaced =>
    if rs.records.getD i default = record then .inl (false, rs)
    else
      insertLoop record serial rest
        { rs with
          records := swapRemove (rs.records ++ [record]) i,
          ttl := record.ttl,
          serial := serial,
          rrsigs := [] }
        true

/-- `RecordSet::insert`.  `none` models an `assert!` panic; otherwise the
returned boolean is the Rust return value and the returned set the state of
`self` afterwards. -/
def insert (rs : RecordSet) (record : Record) (serial : Nat) :
    Option (Bool × RecordSet) :=
  if record.name ≠ rs.name then none
  else if record.recordType ≠ rs.recordType then none
  else
    match insertSingletonStep rs record with
    | none => none
    | some (.inl b) => some (b, rs)
    | some (.inr rs₁) =>
      let toReplace :=
        (List.range rs₁.records.length).filter
          fun i => (rs₁.records.getD i default).data = record.data
      match insertLoop record serial toReplace rs₁ false with
      | .inl res => some res
      | .inr (rs₂, replaced) =>
        if !replaced then
          some (true,
            { rs₂ with
              ttl := record.ttl,
              serial := serial,
              rrsigs := [],
              records := rs₂.records ++ [record] })
        else some (replaced, rs₂)

/-- `RecordSet::remove`.  `none` models an `assert!` panic; otherwise the
returned boolean is the Rust return value and the returned set the state of
`self` afterwards. -/
def remove (rs : RecordSet) (record : Record) (serial : Nat) :
    Option (Bool × RecordSet) :=
  if record.name ≠ rs.name then none
  else if ¬(record.recordType = rs.recordType ∨ record.recordType = .ANY) then none
  else
    match record.recordType with
    | .NS =>
      if rs.records.length ≤ 1 then some (false, rs)
      else removeCore rs record serial
    | .SOA => some (false, rs)
    | _ => removeCore rs record serial
where
  /-- The retain/compare tail of `RecordSet::remove`. -/
  removeCore (rs : RecordSet) (record : Record) (serial : Nat) :
      Option (Bool × RecordSet) :=
    let newRecords := rs.records.filter fun rr => rr.data ≠ record.data
    let removed := newRecords.length < rs.records.length
    if removed then
      some (true, { rs with records := newRecords, serial := serial, rrsigs := [] })
    else
      some (false, { rs with records := newRecords })

end RecordSet

/-- The record iterator, from `RrsetRecords`: either empty, or the data
records, or the data records chained with the signatures.  The constructors
carry the list of records the iterator will yield. -/
inductive RrsetRecords where
  | Empty
  | RecordsOnly (records : List Record)
  | RecordsAndRrsigs (records : List Record)
  deriving DecidableEq, Repr

/-- The full sequence of records an `RrsetRecords` iterator yields. -/
def RrsetRecords.toList : RrsetRecords → List Record
  | .Empty => []
  | .RecordsOnly l => l
  | .RecordsAndRrsigs l => l

namespace RecordSet

/-- `RecordSet::records_with_rrsigs`. -/
def recordsWithRrsigs (rs : RecordSet) : RrsetRecords :=
  if rs.records.isEmpty then .Empty
  else .RecordsAndRrsigs (rs.records ++ rs.rrsigs)

/-- `RecordSet::records_without_rrsigs`. -/
def recordsWithoutRrsigs (rs : RecordSet) : RrsetRecords :=
  if rs.records.isEmpty then .Empty
  else .RecordsOnly rs.records

/-- `RecordSet::records(and_rrsigs)`. -/
def recordsOf (rs : RecordSet) (andRrsigs : Bool) : RrsetRecords :=
  if andRrsigs then rs.recordsWithRrsigs else rs.recordsWithoutRrsigs

end RecordSet

/-! ## Message model (crates/proto/src/op/message.rs) -/

/-- Message type, from `MessageType`. -/
inductive MessageType where
  | Query
  | Response
  deriving DecidableEq, Repr

/-- Operation code, from `OpCode`. -/
inductive OpCode where
  | Query
  | Status
  | Notify
  | Update
  deriving DecidableEq, Repr

/-- Encoder mode, from `EncodeMode`. -/
inductive EncodeMode where
  | Signing
  | Normal
  deriving DecidableEq, Repr

/-- Modelled from the spec: `Edns` (crates/proto/src/op/edns.rs) is not under
the sampled sources.  Per the spec, the EDNS OPT pseudo-record carries the UDP
payload size, the extended (high) response-code bits, a version, the DNSSEC-OK
flag with the remaining flag bits, and the options. -/
structure Edns where
  rcodeHigh : Nat
  version : Nat
  dnssecOk : Bool
  zFlags : Nat
  maxPayload : Nat
  options : List (Nat × Nat)
  deriving DecidableEq, Repr

/-- Modelled from the spec: the conversion `Record::from(&Edns)` is not under
the sampled sources.  The OPT pseudo-record stores the payload size in the
class field, and packs the high response-code bits, version and flags into the
ttl field; the options become the rdata. -/
def recordOfEdns (e : Edns) : Record :=
  { name := [],
    dnsClass := .OPT e.maxPayload,
    ttl := e.rcodeHigh * 2 ^ 24 + e.version % 2 ^ 8 * 2 ^ 16 +
      (if e.dnssecOk then 2 ^ 15 else 0) + e.zFlags % 2 ^ 15,
    data := .OPT e.options }

/-- Modelled from the spec: the conversion `Edns::from(&Record)` is not under
the sampled sources.  Inverse of `recordOfEdns` on well-formed OPT records. -/
def ednsOfRecord (r : Record) : Edns :=
  { rcodeHigh := r.ttl / 2 ^ 24,
    version := r.ttl / 2 ^ 16 % 2 ^ 8,
    dnssecOk := r.ttl / 2 ^ 15 % 2 = 1,
    zFlags := r.ttl % 2 ^ 15,
    maxPayload := match r.dnsClass with | .OPT p => p | _ => 0,
    options := match r.data with | .OPT o => o | _ => [] }

/-- `Edns::max_payload`. -/
def Edns.maxPayloadOf (e : Edns) : Nat :=
  e.maxPayload

/-- Modelled from the spec: `Header` (crates/proto/src/op/header.rs) is not
under the sampled sources.  Per the spec data model the header carries the id,
message type, opcode, flags, the response code and the four section counts.
`responseCode` holds the full (up to 12-bit) response-code value; only its low
four bits exist on the wire, the high bits travel in the EDNS OPT record. -/
structure Header where
  id : Nat
  messageType : MessageType
  opCode : OpCode
  authoritative : Bool
  truncated : Bool
  recursionDesired : Bool
  recursionAvailable : Bool
  authenticData : Bool
  checkingDisabled : Bool
  responseCode : Nat
  queryCount : Nat
  answerCount : Nat
  authorityCount : Nat
  additionalCount : Nat
  deriving DecidableEq, Repr

/-- Modelled from the spec: `Header::emit` writes only the low four bits of the
response code to the wire. -/
def Header.toWire (h : Header) : Header :=
  { h with responseCode := h.responseCode % 16 }

/-- Modelled from the spec: `Header::merge_response_code` merges the EDNS high
response-code bits into the header response code on decode. -/
def Header.mergeResponseCode (h : Header) (high : Nat) : Header :=
  { h with responseCode := high * 16 + h.responseCode % 16 }

/-- A message query, from `Query` (crates/proto/src/op/query.rs, not under the
sampled sources; modelled from the spec data model: `(name, class, type)`). -/
structure Query where
  name : Name
  queryClass : DNSClass
  queryType : RecordType
  deriving DecidableEq, Repr

/-- How a message is signed, from `MessageSignature`. -/
inductive MessageSignature where
  | Unsigned
  | Sig0 (record : Record)
  | Tsig (record : Record)
  deriving DecidableEq, Repr

instance : Inhabited MessageSignature := ⟨.Unsigned⟩

/-- The message, from `Message`: header, the four sections, the extracted EDNS
OPT and the signature. -/
structure Message where
  header : Header
  queries : List Query
  answers : List Record
  authorities : List Record
  additionals : List Record
  signature : MessageSignature
  edns : Option Edns
  deriving DecidableEq, Repr

/-- `Message::max_payload`. -/
def Message.maxPayload (m : Message) : Nat :=
  let maxSize := match m.edns with
    | some e => e.maxPayloadOf
    | none => 512
  if maxSize < 512 then 512 else maxSize

/-- The counts of the records in the message, from `HeaderCounts`. -/
structure HeaderCounts where
  queryCount : Nat
  answerCount : Nat
  authorityCount : Nat
  additionalCount : Nat
  deriving DecidableEq, Repr

/-- `update_header_counts`: a new header with accurate counts for each section.
(The source `assert!`s that each count fits in a `u16`; theorems that use this
in-bounds behaviour carry the corresponding hypotheses.) -/
def updateHeaderCounts (currentHeader : Header) (isTruncated : Bool)
    (counts : HeaderCounts) : Header :=
  { currentHeader with
    queryCount := counts.queryCount,
    answerCount := counts.answerCount,
    authorityCount := counts.authorityCount,
    additionalCount := counts.additionalCount,
    truncated := isTruncated }

/-- The loop body of `Message::read_records`, processing the pre-parsed record
stream one record at a time with the accumulated records, EDNS and signature
state.  Error strings are those of the source (the source interpolates the
record type into the section-placement message; the interpolation is dropped
here). -/
def readRecordsLoop (isAdditional : Bool) :
    List Record → List Record → Option Edns → MessageSignature →
    Except String (List Record × Option Edns × MessageSignature)
  | [], records, edns, sig => .ok (records, edns, sig)
  | record :: rest, records, edns, sig =>
    if sig ≠ MessageSignature.Unsigned then
      .error "TSIG or SIG(0) record must be final resource record"
    else if ¬isAdditional ∧
        (record.recordType = .OPT ∨ record.recordType = .SIG ∨
          record.recordType = .TSIG) then
      .error "record type only allowed in additional section"
    else if ¬isAdditional then
      readRecordsLoop isAdditional rest (records ++ [record]) edns sig
    else
      match record.recordType with
      | .SIG => readRecordsLoop isAdditional rest records edns (.Sig0 record)
      | .TSIG => readRecordsLoop isAdditional rest records edns (.Tsig record)
      | .OPT =>
        if edns.isSome then .error "more than one edns record present"
        else readRecordsLoop isAdditional rest records (some (ednsOfRecord record)) sig
      | _ => readRecordsLoop isAdditional rest (records ++ [record]) edns sig

/-- `Message::read_records` over a pre-parsed record stream (the byte-level
record parser is a collaborator outside the sampled sources). -/
def readRecords (stream : List Record) (isAdditional : Bool) :
    Except String (List Record × Option Edns × MessageSignature) :=
  readRecordsLoop isAdditional stream [] none .Unsigned

/-- The encoded form of a message: the patched header followed by the emitted
queries and the flat emitted record stream (answers, authorities, additionals
including the OPT and signature records).  Byte-level record serialization and
name compression are collaborators outside the sampled sources; records and
queries are modelled as round-tripping through them unchanged. -/
structure WireMessage where
  header : Header
  queries : List Query
  records : List Record
  deriving DecidableEq, Repr

/-- `emit_message_parts`: emit the sections, append the EDNS OPT record (with
the high response-code bits committed) and, outside signing mode, the signature
record, then patch the header placeholder with the actual emitted counts.  The
encoder here has no advisory maximum, so no truncation occurs (as with
`Message::to_vec`). -/
def emitMessageParts (header : Header) (queries : List Query)
    (answers authorities additionals : List Record) (edns : Option Edns)
    (signature : MessageSignature) (mode : EncodeMode) : WireMessage :=
  let includeSignature := mode ≠ EncodeMode.Signing
  let ednsRecords := match edns with
    | some e => [recordOfEdns { e with rcodeHigh := header.responseCode / 16 }]
    | none => []
  let sigRecords :=
    if includeSignature then
      match signature with
      | .Sig0 rec => [rec]
      | .Tsig rec => [rec]
      | .Unsigned => []
    else []
  let additionalAll := additionals ++ ednsRecords ++ sigRecords
  let counts : HeaderCounts :=
    { queryCount := queries.length,
      answerCount := answers.length,
      authorityCount := authorities.length,
      additionalCount := additionalAll.length }
  let finalHeader := updateHeaderCounts header header.truncated counts
  { header := finalHeader.toWire,
    queries := queries,
    records := answers ++ authorities ++ additionalAll }

/-- `Message::emit` (via `BinEncodable for Message`), in normal encode mode as
used by `Message::to_vec`. -/
def Message.emit (m : Message) : WireMessage :=
  emitMessageParts m.header m.queries m.answers m.authorities m.additionals
    m.edns m.signature .Normal

/-- `Message::read` (via `BinDecodable for Message`): read the header, the
declared number of queries, then the three record sections by their declared
counts, and merge the EDNS high response-code bits into the header. -/
def Message.read (w : WireMessage) : Except String Message :=
  let header := w.header
  if w.queries.length < header.queryCount then
    .error "unexpected end of input reached"
  else
    let queries := w.queries.take header.queryCount
    if w.records.length <
        header.answerCount + header.authorityCount + header.additionalCount then
      .error "unexpected end of input reached"
    else
      let answersRaw := w.records.take header.answerCount
      let rest₁ := w.records.drop header.answerCount
      let authoritiesRaw := rest₁.take header.authorityCount
      let rest₂ := rest₁.drop header.authorityCount
      let additionalsRaw := rest₂.take header.additionalCount
      match readRecords answersRaw false with
      | .error e => .error e
      | .ok (answers, _, _) =>
        match readRecords authoritiesRaw false with
        | .error e => .error e
        | .ok (authorities, _, _) =>
          match readRecords additionalsRaw true with
          | .error e => .error e
          | .ok (additionals, edns, signature) =>
            let header := match edns with
              | some e => header.mergeResponseCode e.rcodeHigh
              | none => header
            .ok { header, queries, answers, authorities, additionals,
                  signature, edns }

/-! ## Chained catalog (authority contract from
crates/server/src/authority/authority.rs; the catalog loop itself is modelled
from the spec) -/

/-- Response codes, from the subset of `ResponseCode` the embedded code and
claims distinguish. -/
inductive ResponseCode where
  | NoError
  | FormErr
  | ServFail
  | NXDomain
  | NotImp
  | Refused
  deriving DecidableEq, Repr

/-- A lookup error carrying a response code, from `LookupError::ResponseCode`
(the only variant the catalog claims exercise). -/
inductive LookupError where
  | ResponseCode (rc : ResponseCode)
  deriving DecidableEq, Repr

/-- The three-valued control flow for authority lookups, from
`LookupControlFlow<T, E>`: a provisional result that later authorities may
amend, a terminal result, or a skip. -/
inductive LookupControlFlow (T E : Type) where
  | Continue (result : Except E T)
  | Break (result : Except E T)
  | Skip
  deriving Repr

instance {E T : Type} [DecidableEq E] [DecidableEq T] :
    DecidableEq (Except E T) := fun a b =>
  match a, b with
  | .ok x, .ok y => decidable_of_iff (x = y) (by simp)
  | .error x, .error y => decidable_of_iff (x = y) (by simp)
  | .ok _, .error _ => isFalse (by simp)
  | .error _, .ok _ => isFalse (by simp)

instance {T E : Type} [DecidableEq T] [DecidableEq E] :
    DecidableEq (LookupControlFlow T E) := fun a b =>
  match a, b with
  | .Continue x, .Continue y => decidable_of_iff (x = y) (by simp)
  | .Break x, .Break y => decidable_of_iff (x = y) (by simp)
  | .Skip, .Skip => isTrue rfl
  | .Continue _, .Break _ => isFalse (by simp)
  | .Continue _, .Skip => isFalse (by simp)
  | .Break _, .Continue _ => isFalse (by simp)
  | .Break _, .Skip => isFalse (by simp)
  | .Skip, .Continue _ => isFalse (by simp)
  | .Skip, .Break _ => isFalse (by simp)

/-- The lookup value carried through the catalog, from `AuthLookup` (the
variants the catalog claims exercise). -/
inductive AuthLookup where
  | Empty
  | Records (answers : List Record)
  deriving DecidableEq, Repr

/-- Modelled from the spec: an authority as the chained catalog sees it for one
fixed request (`Catalog` and its authorities live in hickory-server code that
is not under the sampled sources).  `searchResult` is what `search` returns for
the request, and `consultFn` maps the previous result to what `consult`
returns. -/
structure ChainAuthority where
  searchResult : LookupControlFlow AuthLookup LookupError
  consultFn : LookupControlFlow AuthLookup LookupError →
    LookupControlFlow AuthLookup LookupError

/-- Modelled from the spec (§running the chain, step 2): call `search` on each
authority in declaration order while the result is `Skip`; return the index of
the producing authority and its result. -/
def searchPhase : List ChainAuthority →
    Option (Nat × LookupControlFlow AuthLookup LookupError)
  | [] => none
  | a :: rest =>
    match a.searchResult with
    | .Skip => (searchPhase rest).map fun p => (p.1 + 1, p.2)
    | r => some (0, r)

/-- Modelled from the spec (step 5): consult every authority other than the
producer, in order.  A `Break` stops the chain, a `Skip` keeps the prior value,
a `Continue` replaces it.  Returns the final value and the indices of the
authorities whose `consult` was invoked, in order. -/
def consultPhase (producer : Nat) :
    List ChainAuthority → Nat → LookupControlFlow AuthLookup LookupError →
    List Nat → LookupControlFlow AuthLookup LookupError × List Nat
  | [], _, cur, consulted => (cur, consulted.reverse)
  | a :: rest, j, cur, consulted =>
    if j = producer then consultPhase producer rest (j + 1) cur consulted
    else
      match a.consultFn cur with
      | .Break b => (.Break b, (j :: consulted).reverse)
      | .Skip => consultPhase producer rest (j + 1) cur (j :: consulted)
      | .Continue c => consultPhase producer rest (j + 1) (.Continue c) (j :: consulted)

/-- Modelled from the spec (steps 1-5): run the chain of authorities for one
request.  Returns the final control-flow value together with the indices of the
authorities whose `consult` was invoked (empty when no `consult` ran). -/
def chainLookup (auths : List ChainAuthority) :
    LookupControlFlow AuthLookup LookupError × List Nat :=
  match searchPhase auths with
  | none => (.Continue (.error (.ResponseCode .ServFail)), [])
  | some (_, .Break b) => (.Break b, [])
  | some (i, r) => consultPhase i auths 0 r []

/-- Modelled from the spec (step 6): map the final control-flow value to the
response delivered to the client, as a response code and answer records.
`Ok` values yield NOERROR with the looked-up answers, an NXDomain error yields
NXDOMAIN, any other error ServFail. -/
def responseOf (flow : LookupControlFlow AuthLookup LookupError) :
    ResponseCode × List Record :=
  match flow with
  | .Continue (.ok l) | .Break (.ok l) =>
    (.NoError, match l with | .Empty => [] | .Records answers => answers)
  | .Continue (.error (.ResponseCode .NXDomain))
  | .Break (.error (.ResponseCode .NXDomain)) => (.NXDomain, [])
  | .Continue (.error _) | .Break (.error _) => (.ServFail, [])
  | .Skip => (.ServFail, [])

/-- Modelled from the spec: the full catalog result for a request, response
code and answers plus the consult trace. -/
def catalogResponse (auths : List ChainAuthority) :
    (ResponseCode × List Record) × List Nat :=
  let (flow, consulted) := chainLookup auths
  (responseOf flow, consulted)

/-- RFC 1982 serial-number order on 32-bit serials, stated from the claim: `s1`
is greater than `s2` when they differ and the forward distance from `s2` to
`s1` is below `2 ^ 31`.  This is the comparison claim C2 attributes to
`RecordSet::insert`; it is defined here only to be compared against the
source-derived `insert`. -/
def serialGt1982 (s1 s2 : Nat) : Bool :=
  s1 % 2 ^ 32 ≠ s2 % 2 ^ 32 ∧ (s1 + 2 ^ 32 - s2 % 2 ^ 32) % 2 ^ 32 < 2 ^ 31

/-- True when a decode result is an error. -/
def exceptIsError {α : Type} (x : Except String α) : Bool :=
  match x with
  | .error _ => true
  | .ok _ => false

/-- Records that `read_records` turns into the message signature: TSIG and
SIG(0). -/
def isSignatureRecord (r : Record) : Bool :=
  r.recordType = RecordType.TSIG ∨ r.recordType = RecordType.SIG

/-- OPT records. -/
def isOptRecord (r : Record) : Bool :=
  r.recordType = RecordType.OPT

/-- Records that `read_records` allows only in the additional section. -/
def isAdditionalOnly (r : Record) : Bool :=
  r.recordType = RecordType.OPT ∨ r.recordType = RecordType.SIG ∨
    r.recordType = RecordType.TSIG

/-- The signature record carries the record type of its variant (`Message::set_signature`
asserts exactly this, and decoding establishes it). -/
def sigWellFormed : MessageSignature → Prop
  | .Unsigned => True
  | .Sig0 r => r.recordType = RecordType.SIG
  | .Tsig r => r.recordType = RecordType.TSIG

/-- The EDNS slot is consistent with the header response code: absent EDNS
means the response code fits in the four wire bits, and a present EDNS carries
the high response-code bits (as `emit` commits them) with its fields in their
wire ranges. -/
def ednsWellFormed : Option Edns → Nat → Prop
  | none, rc => rc < 16
  | some e, rc => e.rcodeHigh = rc / 16 ∧ e.version < 2 ^ 8 ∧ e.zFlags < 2 ^ 15

/-- A well-formed message for the encode/decode round trip: no pseudo-record
(OPT/SIG/TSIG) placed directly in a record section, a type-correct signature
record, a response code within 12 bits, an EDNS slot consistent with the
response code, and section sizes within the `u16` bounds that
`update_header_counts` asserts. -/
def Message.wellFormed (m : Message) : Prop :=
  (∀ r ∈ m.answers, isAdditionalOnly r = false) ∧
  (∀ r ∈ m.authorities, isAdditionalOnly r = false) ∧
  (∀ r ∈ m.additionals, isAdditionalOnly r = false) ∧
  sigWellFormed m.signature ∧
  m.header.responseCode < 4096 ∧
  ednsWellFormed m.edns m.header.responseCode ∧
  m.queries.length ≤ 65535 ∧ m.answers.length ≤ 65535 ∧
  m.authorities.length ≤ 65535 ∧ m.additionals.length + 2 ≤ 65535

/-- The counts `emit_message_parts` patches into the header: the lengths
actually emitted in each section, the OPT and signature records included. -/
def Message.emittedCounts (m : Message) : HeaderCounts :=
  { queryCount := m.queries.length,
    answerCount := m.answers.length,
    authorityCount := m.authorities.length,
    additionalCount := m.additionals.length +
      (match m.edns with | some _ => 1 | none => 0) +
      (match m.signature with | .Unsigned => 0 | _ => 1) }

/-- The message with its header counts canonicalized to the emitted counts:
this is what decoding an encoded message yields. -/
def Message.canonicalized (m : Message) : Message :=
  { m with
    header := updateHeaderCounts m.header m.header.truncated m.emittedCounts }

/-! ## Example values used by witness theorems -/

/-- A header with all fields at their defaults. -/
def exHeader : Header :=
  { id := 1, messageType := .Query, opCode := .Query, authoritative := false,
    truncated := false, recursionDesired := false, recursionAvailable := false,
    authenticData := false, checkingDisabled := false, responseCode := 0,
    queryCount := 0, answerCount := 0, authorityCount := 0, additionalCount := 0 }

/-- An EDNS OPT advertising a payload below 512. -/
def exEdnsSmall : Edns :=
  { rcodeHigh := 0, version := 0, dnssecOk := false, zFlags := 0,
    maxPayload := 100, options := [] }

/-- A message whose EDNS advertises a payload below 512. -/
def exMsgSmallPayload : Message :=
  { header := exHeader, queries := [], answers := [], authorities := [],
    additionals := [], signature := .Unsigned, edns := some exEdnsSmall }

/-- A stray RRSIG record used as a sidecar entry. -/
def exRrsig : Record :=
  { name := ["a"], dnsClass := .IN, ttl := 5, data := .SIG [1] }

/-- A record set with no data records but a non-empty rrsig sidecar. -/
def exEmptyWithSig : RecordSet :=
  { name := ["a"], recordType := .A, dnsClass := .IN, ttl := 0,
    records := [], rrsigs := [exRrsig], serial := 3 }

/-- An NS record. -/
def exNsRec : Record :=
  { name := ["z"], dnsClass := .IN, ttl := 60, data := .NS (["ns1"] : Name) }

/-- A second NS record. -/
def exNsRec2 : Record :=
  { name := ["z"], dnsClass := .IN, ttl := 60, data := .NS (["ns2"] : Name) }

/-- An NS record set holding exactly one record. -/
def exNsSet : RecordSet :=
  { name := ["z"], recordType := .NS, dnsClass := .IN, ttl := 60,
    records := [exNsRec], rrsigs := [], serial := 0 }

/-- An SOA rdata whose serial sits just past the RFC 1982 wrap boundary. -/
def exSoaOld : SOAData :=
  { mname := ["m"], rname := ["r"], serial := 2 ^ 31 + 5, refresh := 1,
    retry := 2, expire := 3, minimum := 4 }

/-- An SOA rdata whose serial is numerically small but greater than
`exSoaOld.serial` under RFC 1982 serial arithmetic. -/
def exSoaNew : SOAData :=
  { mname := ["m"], rname := ["r"], serial := 1, refresh := 1, retry := 2,
    expire := 3, minimum := 4 }

/-- An SOA rdata with a numerically larger serial than `exSoaOld`. -/
def exSoaBigger : SOAData :=
  { mname := ["m"], rname := ["r"], serial := 2 ^ 31 + 6, refresh := 1,
    retry := 2, expire := 3, minimum := 4 }

/-- The SOA record currently in the example set. -/
def exSoaRecOld : Record :=
  { name := ["e"], dnsClass := .IN, ttl := 3600, data := .SOA exSoaOld }

/-- An SOA record carrying `exSoaNew`. -/
def exSoaRecNew : Record :=
  { name := ["e"], dnsClass := .IN, ttl := 3600, data := .SOA exSoaNew }

/-- An SOA record carrying `exSoaBigger`. -/
def exSoaRecBigger : Record :=
  { name := ["e"], dnsClass := .IN, ttl := 1800, data := .SOA exSoaBigger }

/-- An SOA record set holding `exSoaRecOld`. -/
def exSoaSet : RecordSet :=
  { name := ["e"], recordType := .SOA, dnsClass := .IN, ttl := 3600,
    records := [exSoaRecOld], rrsigs := [], serial := 0 }

/-- The state of `exNsSet` after inserting `exNsRec2` at serial 4. -/
def exNsSetIns : RecordSet :=
  { name := ["z"], recordType := .NS, dnsClass := .IN, ttl := 60,
    records := [exNsRec, exNsRec2], rrsigs := [], serial := 4 }

/-- An authority whose search skips; its consult leaves the previous result in
place (the default consult of the authority contract). -/
def exSkipAuth : ChainAuthority :=
  { searchResult := .Skip, consultFn := fun prev => prev }

/-- A concrete answer record. -/
def exARec : Record :=
  { name := ["w"], dnsClass := .IN, ttl := 3600, data := .A 5 }

/-- A different answer record, for consult overlays. -/
def exARec2 : Record :=
  { name := ["w"], dnsClass := .IN, ttl := 3600, data := .A 9 }

/-- An authority whose search breaks with a record answer. -/
def exBreakAuth : ChainAuthority :=
  { searchResult := .Break (.ok (.Records [exARec])),
    consultFn := fun _ => .Continue (.ok (.Records [exARec2])) }

/-- An authority whose search continues and whose consult would overwrite the
answer; used to show that a Break silences it. -/
def exConsultAuth : ChainAuthority :=
  { searchResult := .Continue (.ok (.Records [exARec2])),
    consultFn := fun _ => .Continue (.ok (.Records [exARec2])) }

/-- A plain record for decode streams. -/
def exPlainRec : Record :=
  { name := ["p"], dnsClass := .IN, ttl := 30, data := .A 1 }

/-- A header declaring counts that do not match the sections of
`exMsgWrongCounts` (as in the repository's own round-trip test). -/
def exHeaderWrong : Header :=
  { id := 10, messageType := .Response, opCode := .Update,
    authoritative := true, truncated := true, recursionDesired := true,
    recursionAvailable := true, authenticData := true,
    checkingDisabled := true, responseCode := 2, queryCount := 1,
    answerCount := 5, authorityCount := 5, additionalCount := 0 }

/-- A message with 0 queries, 1 answer, 1 authority and 1 additional record,
whose header wrongly declares 1/5/5/0. -/
def exMsgWrongCounts : Message :=
  { header := exHeaderWrong, queries := [], answers := [exPlainRec],
    authorities := [exNsRec], additionals := [exARec],
    signature := .Unsigned, edns := none }

/-- A TSIG record for decode streams. -/
def exTsigRec : Record :=
  { name := ["k"], dnsClass := .IN, ttl := 0, data := .TSIG [2] }

/-- An OPT record for decode streams. -/
def exOptRec : Record :=
  { name := [], dnsClass := .OPT 4096, ttl := 0, data := .OPT [] }

/-! ## Claim C9 -/

/-- Claim C9: for every Message, `max_payload()` returns at least 512; it
returns 512 when the message has no EDNS OPT, 512 when the advertised EDNS
payload is below 512, and the advertised payload otherwise. -/
theorem claim_c9_max_payload (m : Message) :
    512 ≤ m.maxPayload ∧
    (m.edns = none → m.maxPayload = 512) ∧
    ∀ e, m.edns = some e →
      m.maxPayload = if e.maxPayloadOf < 512 then 512 else e.maxPayloadOf := by
  unfold Message.maxPayload Edns.maxPayloadOf
  rcases h : m.edns with _ | e <;> simp [h] <;> split <;> omega

/-- Witness for claim C9 at a message advertising payload 100: the result is
clamped up to 512. -/
theorem claim_c9_max_payload_witness :
    exMsgSmallPayload.maxPayload = 512 ∧ 512 ≤ exMsgSmallPayload.maxPayload := by
  have h := claim_c9_max_payload exMsgSmallPayload
  refine ⟨?_, h.1⟩
  rw [h.2.2 exEdnsSmall rfl]
  decide

/-! ## Claim C10 -/

/-- Claim C10: for every RecordSet whose data record list is empty,
`records_with_rrsigs()` (and `records(true)`) is the `Empty` iterator and
yields no records at all, regardless of the rrsig sidecar. -/
theorem claim_c10_empty_records (rs : RecordSet) (h : rs.records = []) :
    rs.recordsWithRrsigs = .Empty ∧ rs.recordsOf true = .Empty ∧
    rs.recordsWithRrsigs.toList = [] := by
  simp [RecordSet.recordsWithRrsigs, RecordSet.recordsOf, h, RrsetRecords.toList]

/-- Witness for claim C10 at a set with an empty record list but a non-empty
rrsig sidecar. -/
theorem claim_c10_empty_records_witness :
    exEmptyWithSig.rrsigs ≠ [] ∧ exEmptyWithSig.recordsWithRrsigs = .Empty ∧
    exEmptyWithSig.recordsWithRrsigs.toList = [] := by
  have h := claim_c10_empty_records exEmptyWithSig rfl
  exact ⟨by decide, h.1, h.2.2⟩

/-! ## Claim C8 -/

/-- Claim C8: removing an NS record from an NS RecordSet holding at most one
record returns false and leaves the set unchanged, and removing from an SOA
RecordSet always returns false and leaves the set unchanged (whether the
remove record names type SOA or ANY). -/
theorem claim_c8_remove_floor :
    (∀ (rs : RecordSet) (record : Record) (serial : Nat),
      rs.recordType = .NS → record.name = rs.name → record.recordType = .NS →
      rs.records.length ≤ 1 →
      rs.remove record serial = some (false, rs)) ∧
    (∀ (rs : RecordSet) (record : Record) (serial : Nat),
      rs.recordType = .SOA → record.name = rs.name →
      (record.recordType = .SOA ∨ record.recordType = .ANY) →
      (∀ r ∈ rs.records, r.recordType = .SOA) →
      rs.remove record serial = some (false, rs)) := by
  constructor
  · intro rs record serial hrt hname hrec hlen
    unfold RecordSet.remove
    simp only [hname, hrec, hrt]
    simp [hlen]
  · intro rs record serial hrt hname hrec hall
    rcases hrec with h | h
    · unfold RecordSet.remove
      simp [hname, h, hrt]
    · have hne : ∀ r ∈ rs.records, r.data ≠ record.data := by
        intro r hr heq
        have h1 : r.recordType = RecordType.SOA := hall r hr
        have h2 : record.recordType = RecordType.ANY := h
        unfold Record.recordType at h1 h2
        rw [heq, h2] at h1
        exact absurd h1 (by decide)
      have hfil : List.filter (fun rr => !decide (rr.data = record.data)) rs.records
          = rs.records :=
        List.filter_eq_self.mpr fun a ha => by simpa using hne a ha
      unfold RecordSet.remove RecordSet.remove.removeCore
      simp [hname, h, hfil]

/-- Witness for claim C8: removing the sole NS record is refused, and removing
the SOA record of an SOA set is refused. -/
theorem claim_c8_remove_floor_witness :
    exNsSet.records.length ≤ 1 ∧
    exNsSet.remove exNsRec2 0 = some (false, exNsSet) ∧
    exSoaSet.remove exSoaRecOld 9 = some (false, exSoaSet) := by
  refine ⟨by decide,
    claim_c8_remove_floor.1 exNsSet exNsRec2 0 rfl rfl rfl (by decide),
    claim_c8_remove_floor.2 exSoaSet exSoaRecOld 9 rfl rfl (Or.inl rfl)
      (by decide)⟩

/-! ## Claim C2 -/

/-- Counterexample for claim C2: the new SOA serial 1 is greater than the
existing serial `2 ^ 31 + 5` under RFC 1982 serial arithmetic, so per the claim
the insert should clear and replace the set, yet `RecordSet::insert` (which
compares serials with the plain integer order) returns false and leaves the
set unchanged. -/
theorem claim_c2_soa_insert_counterexample :
    serialGt1982 exSoaNew.serial exSoaOld.serial = true ∧
    exSoaSet.insert exSoaRecNew 7 = some (false, exSoaSet) := by
  constructor
  · decide
  · decide

/-- Claim C2 as amended: the serial comparison of `RecordSet::insert` on an
SOA set is the plain integer order on the 32-bit serials, not RFC 1982 serial
arithmetic.  If the new serial is numerically less than or equal to the
existing one the insert returns false and leaves the set unchanged; if it is
numerically greater the set is cleared and replaced by the new record. -/
theorem claim_c2_soa_insert (rs : RecordSet) (r₀ record : Record) (serial : Nat)
    (soa₀ soaN : SOAData)
    (hset : rs.records = [r₀]) (hrt : rs.recordType = .SOA)
    (hname : record.name = rs.name)
    (hd₀ : r₀.data = .SOA soa₀) (hdN : record.data = .SOA soaN) :
    (soaN.serial ≤ soa₀.serial → rs.insert record serial = some (false, rs)) ∧
    (soa₀.serial < soaN.serial →
      rs.insert record serial = some (true,
        { rs with
            records := [record], ttl := record.ttl,
            serial := serial, rrsigs := [] })) := by
  have hrec : record.recordType = RecordType.SOA := by
    unfold Record.recordType
    rw [hdN]
    rfl
  constructor
  · intro hle
    unfold RecordSet.insert RecordSet.insertSingletonStep
    simp [hname, hrec, hrt, hset, hd₀, hdN, hle]
  · intro hlt
    have hle : ¬soaN.serial ≤ soa₀.serial := by omega
    unfold RecordSet.insert RecordSet.insertSingletonStep
    simp [hname, hrec, hrt, hset, hd₀, hdN, hle, RecordSet.insertLoop]

/-- Witness for the amended claim C2: a numerically greater serial replaces
the set, a numerically smaller one is ignored. -/
theorem claim_c2_soa_insert_witness :
    exSoaSet.insert exSoaRecNew 7 = some (false, exSoaSet) ∧
    exSoaSet.insert exSoaRecBigger 7 = some (true,
      { exSoaSet with
          records := [exSoaRecBigger], ttl := exSoaRecBigger.ttl,
          serial := 7, rrsigs := [] }) := by
  have h1 := claim_c2_soa_insert exSoaSet exSoaRecOld exSoaRecNew 7
    exSoaOld exSoaNew rfl rfl rfl rfl rfl
  have h2 := claim_c2_soa_insert exSoaSet exSoaRecOld exSoaRecBigger 7
    exSoaOld exSoaBigger rfl rfl rfl rfl rfl
  exact ⟨h1.1 (by decide), h2.2 (by decide)⟩

/-! ## Claims C5 and C6 -/

/-- Claim C5: in a chained catalog, when the authorities before position `i`
all skip and the authority at position `i` breaks (with Ok or Err), the chain
returns that Break value with an empty consult trace — no consult is invoked
on any authority, earlier, later, or the producer itself — and the response is
built solely from the Break value.  The conclusion holds for every suffix
`post`, so later authorities are never examined at all. -/
theorem claim_c5_break_terminal (pre post : List ChainAuthority)
    (a : ChainAuthority) (b : Except LookupError AuthLookup)
    (hpre : ∀ x ∈ pre, x.searchResult = .Skip)
    (ha : a.searchResult = .Break b) :
    chainLookup (pre ++ a :: post) = (.Break b, []) ∧
    catalogResponse (pre ++ a :: post) = (responseOf (.Break b), []) := by
  have hsp : searchPhase (pre ++ a :: post) = some (pre.length, .Break b) := by
    induction pre with
    | nil => simp [searchPhase, ha]
    | cons x rest ih =>
      have hx' : x.searchResult = LookupControlFlow.Skip := hpre x (by simp)
      simp [searchPhase, hx', ih fun y hy => hpre y (by simp [hy])]
  refine ⟨?_, ?_⟩ <;> simp [chainLookup, catalogResponse, hsp]

/-- Witness for claim C5: with a skipping authority, then a breaking authority,
then an authority whose consult would overwrite the answer, the catalog
returns the Break answer with no consult invoked. -/
theorem claim_c5_break_terminal_witness :
    catalogResponse [exSkipAuth, exBreakAuth, exConsultAuth] =
      ((.NoError, [exARec]), []) := by
  have h := claim_c5_break_terminal [exSkipAuth] [exConsultAuth] exBreakAuth
    (.ok (.Records [exARec]))
    (by
      intro x hx
      rcases List.mem_singleton.mp hx with rfl
      rfl)
    rfl
  rw [List.singleton_append] at h
  rw [h.2]
  rfl

/-- Claim C6: in a chained catalog where every authority skips, the catalog
synthesizes `Continue(Err(ServFail))` and the response has response code
ServFail and no answer records. -/
theorem claim_c6_all_skip (auths : List ChainAuthority)
    (h : ∀ a ∈ auths, a.searchResult = .Skip) :
    chainLookup auths =
      (.Continue (.error (.ResponseCode .ServFail)), []) ∧
    catalogResponse auths = ((.ServFail, []), []) := by
  have hsp : searchPhase auths = none := by
    induction auths with
    | nil => rfl
    | cons a rest ih =>
      have ha : a.searchResult = LookupControlFlow.Skip := h a (by simp)
      simp [searchPhase, ha, ih fun b hb => h b (by simp [hb])]
  refine ⟨?_, ?_⟩ <;> simp [chainLookup, catalogResponse, responseOf, hsp]

/-- Witness for claim C6 at a two-authority chain that always skips. -/
theorem claim_c6_all_skip_witness :
    catalogResponse [exSkipAuth, exSkipAuth] = ((.ServFail, []), []) := by
  have h := claim_c6_all_skip [exSkipAuth, exSkipAuth]
    (by
      intro a ha
      rcases List.mem_cons.mp ha with rfl | ha'
      · rfl
      · rcases List.mem_singleton.mp ha' with rfl
        rfl)
  exact h.2

/-! ## Claims C3 and C4 -/

/-- Once a signature is pending, any further record makes `read_records`
fail. -/
lemma readRecordsLoop_pending_sig (isAdd : Bool) (x : Record)
    (l acc : List Record) (edns : Option Edns) (sig : MessageSignature)
    (hsig : sig ≠ .Unsigned) :
    readRecordsLoop isAdd (x :: l) acc edns sig =
      .error "TSIG or SIG(0) record must be final resource record" := by
  simp [readRecordsLoop, hsig]

/-- A TSIG or SIG(0) record followed by any further record makes the
additional-section `read_records` fail, whatever came before it. -/
lemma readRecordsLoop_terminal (r : Record) (rest : List Record)
    (hr : isSignatureRecord r = true) (hrest : rest ≠ []) :
    ∀ (pre acc : List Record) (edns : Option Edns) (sig : MessageSignature),
      exceptIsError (readRecordsLoop true (pre ++ r :: rest) acc edns sig)
        = true := by
  intro pre
  induction pre with
  | nil =>
    intro acc edns sig
    match sig with
    | .Sig0 s => simp [readRecordsLoop, exceptIsError]
    | .Tsig s => simp [readRecordsLoop, exceptIsError]
    | .Unsigned =>
      rcases List.exists_cons_of_ne_nil hrest with ⟨y, ys, rfl⟩
      have hr' : r.recordType = RecordType.TSIG ∨ r.recordType = RecordType.SIG := by
        simpa [isSignatureRecord] using hr
      rcases hr' with h | h <;>
        simp [readRecordsLoop, h, exceptIsError]
  | cons p pre' ih =>
    intro acc edns sig
    match sig with
    | .Sig0 s => simp [readRecordsLoop, exceptIsError]
    | .Tsig s => simp [readRecordsLoop, exceptIsError]
    | .Unsigned =>
      cases hp : p.recordType <;>
        simp only [List.cons_append, readRecordsLoop, hp] <;>
        simp only [reduceCtorEq, ne_eq, not_false_eq_true, not_true_eq_false,
          if_false, if_true, ite_false, ite_true, false_and, not_false_iff] <;>
        first
        | exact ih acc edns _
        | exact ih (acc ++ [p]) edns _
        | (cases edns <;>
            simp [exceptIsError] <;>
            exact ih acc _ _)

/-- A successful additional-section `read_records` saw at most one TSIG/SIG(0)
record: a pending signature fails on any successor, so the signature record,
if any, is last. -/
lemma readRecordsLoop_ok_sig_count :
    ∀ (l acc : List Record) (edns : Option Edns)
      (out : List Record × Option Edns × MessageSignature),
      readRecordsLoop true l acc edns .Unsigned = .ok out →
      l.countP isSignatureRecord ≤ 1 := by
  intro l
  induction l with
  | nil => intro acc edns out _; simp
  | cons x rest ih =>
    intro acc edns out h
    cases hx : x.recordType
    case TSIG =>
      rw [readRecordsLoop] at h
      simp only [hx, reduceCtorEq, ne_eq, not_false_eq_true, not_true_eq_false,
        ite_false, ite_true, false_and, if_false] at h
      cases rest with
      | nil => simp [List.countP_cons, isSignatureRecord, hx]
      | cons y ys =>
        rw [readRecordsLoop_pending_sig true y ys acc edns _ (by simp)] at h
        exact absurd h (by simp)
    case SIG =>
      rw [readRecordsLoop] at h
      simp only [hx, reduceCtorEq, ne_eq, not_false_eq_true, not_true_eq_false,
        ite_false, ite_true, false_and, if_false] at h
      cases rest with
      | nil => simp [List.countP_cons, isSignatureRecord, hx]
      | cons y ys =>
        rw [readRecordsLoop_pending_sig true y ys acc edns _ (by simp)] at h
        exact absurd h (by simp)
    all_goals
      rw [readRecordsLoop] at h
      simp only [hx, reduceCtorEq, ne_eq, not_false_eq_true, not_true_eq_false,
        ite_false, ite_true, false_and, if_false] at h
      first
      | (have hrec := ih _ _ _ h
         simpa [List.countP_cons, isSignatureRecord, hx] using hrec)
      | (cases edns with
         | some e => exact absurd h (by simp)
         | none =>
           have hrec := ih _ _ _ h
           simpa [List.countP_cons, isSignatureRecord, hx] using hrec)

/-- A successful additional-section `read_records` saw at most one OPT record
beyond any EDNS already recorded. -/
lemma readRecordsLoop_ok_opt_count :
    ∀ (l acc : List Record) (edns : Option Edns)
      (out : List Record × Option Edns × MessageSignature),
      readRecordsLoop true l acc edns .Unsigned = .ok out →
      l.countP isOptRecord + (if edns.isSome then 1 else 0) ≤ 1 := by
  intro l
  induction l with
  | nil => intro acc edns out _; split <;> simp
  | cons x rest ih =>
    intro acc edns out h
    cases hx : x.recordType
    case TSIG =>
      rw [readRecordsLoop] at h
      simp only [hx, reduceCtorEq, ne_eq, not_false_eq_true, not_true_eq_false,
        ite_false, ite_true, false_and, if_false] at h
      cases rest with
      | nil => simp [List.countP_cons, isOptRecord, hx]; split <;> simp
      | cons y ys =>
        rw [readRecordsLoop_pending_sig true y ys acc edns _ (by simp)] at h
        exact absurd h (by simp)
    case SIG =>
      rw [readRecordsLoop] at h
      simp only [hx, reduceCtorEq, ne_eq, not_false_eq_true, not_true_eq_false,
        ite_false, ite_true, false_and, if_false] at h
      cases rest with
      | nil => simp [List.countP_cons, isOptRecord, hx]; split <;> simp
      | cons y ys =>
        rw [readRecordsLoop_pending_sig true y ys acc edns _ (by simp)] at h
        exact absurd h (by simp)
    case OPT =>
      rw [readRecordsLoop] at h
      simp only [hx, reduceCtorEq, ne_eq, not_false_eq_true, not_true_eq_false,
        ite_false, ite_true, false_and, if_false] at h
      cases edns with
      | some e => exact absurd h (by simp)
      | none =>
        have := ih _ _ _ h
        simp only [Option.isSome_some, if_true] at this
        simpa [List.countP_cons, isOptRecord, hx] using this
    all_goals
      rw [readRecordsLoop] at h
      simp only [hx, reduceCtorEq, ne_eq, not_false_eq_true, not_true_eq_false,
        ite_false, ite_true, false_and, if_false] at h
      have := ih _ _ _ h
      simpa [List.countP_cons, isOptRecord, hx] using this

/-- An OPT, SIG or TSIG record anywhere in a non-additional section makes
`read_records` fail. -/
lemma readRecordsLoop_nonadditional_err :
    ∀ (l acc : List Record) (edns : Option Edns),
      (∃ r ∈ l, isAdditionalOnly r = true) →
      exceptIsError (readRecordsLoop false l acc edns .Unsigned) = true := by
  intro l
  induction l with
  | nil => intro acc edns h; simp at h
  | cons x rest ih =>
    intro acc edns hmem
    by_cases hx : isAdditionalOnly x = true
    · have hx' : x.recordType = RecordType.OPT ∨ x.recordType = RecordType.SIG ∨
          x.recordType = RecordType.TSIG := by
        simpa [isAdditionalOnly] using hx
      rcases hx' with h | h | h <;> simp [readRecordsLoop, h, exceptIsError]
    · have hx' : x.recordType ≠ RecordType.OPT ∧ x.recordType ≠ RecordType.SIG ∧
          x.recordType ≠ RecordType.TSIG := by
        constructor
        · intro hc; exact hx (by simp [isAdditionalOnly, hc])
        constructor
        · intro hc; exact hx (by simp [isAdditionalOnly, hc])
        · intro hc; exact hx (by simp [isAdditionalOnly, hc])
      have hrest : ∃ r ∈ rest, isAdditionalOnly r = true := by
        rcases hmem with ⟨r, hr, hbad⟩
        rcases List.mem_cons.mp hr with rfl | hr'
        · exact absurd hbad hx
        · exact ⟨r, hr', hbad⟩
      rw [readRecordsLoop]
      simp only [reduceCtorEq, ne_eq, not_false_eq_true, not_true_eq_false,
        ite_false, ite_true, if_false, Bool.not_eq_true]
      rw [if_neg (by simp [hx'.1, hx'.2.1, hx'.2.2])]
      exact ih (acc ++ [x]) edns hrest

/-- A successful additional-section `read_records` leaves no OPT record in the
returned record list; the OPT, if any, is extracted into the EDNS slot. -/
lemma readRecordsLoop_ok_no_opt :
    ∀ (l acc : List Record) (edns : Option Edns) (sig : MessageSignature)
      (out : List Record × Option Edns × MessageSignature),
      readRecordsLoop true l acc edns sig = .ok out →
      (∀ r ∈ acc, isOptRecord r = false) →
      (∀ r ∈ out.1, isOptRecord r = false) ∧
      (out.2.1.isSome ↔ (edns.isSome ∨ 1 ≤ l.countP isOptRecord)) := by
  intro l
  induction l with
  | nil =>
    intro acc edns sig out h hacc
    rw [readRecordsLoop] at h
    simp only [Except.ok.injEq] at h
    subst h
    exact ⟨hacc, by simp⟩
  | cons x rest ih =>
    intro acc edns sig out h hacc
    have hsig : sig = .Unsigned := by
      by_contra hs
      rw [readRecordsLoop_pending_sig true x rest acc edns sig hs] at h
      exact absurd h (by simp)
    subst hsig
    cases hx : x.recordType
    case OPT =>
      rw [readRecordsLoop] at h
      simp only [hx, reduceCtorEq, ne_eq, not_false_eq_true, not_true_eq_false,
        ite_false, ite_true, false_and, if_false] at h
      cases edns with
      | some e => exact absurd h (by simp)
      | none =>
        have := ih _ _ _ _ h hacc
        refine ⟨this.1, ?_⟩
        rw [this.2]
        simp [List.countP_cons, isOptRecord, hx]
    all_goals
      rw [readRecordsLoop] at h
      simp only [hx, reduceCtorEq, ne_eq, not_false_eq_true, not_true_eq_false,
        ite_false, ite_true, false_and, if_false] at h
      first
      | (have hrec := ih _ _ _ _ h hacc
         refine ⟨hrec.1, ?_⟩
         rw [hrec.2]
         simp [List.countP_cons, isOptRecord, hx])
      | (have hxopt : isOptRecord x = false := by simp [isOptRecord, hx]
         have := ih _ _ _ _ h (by
           intro r hr
           rcases List.mem_append.mp hr with hr' | hr'
           · exact hacc r hr'
           · rcases List.mem_singleton.mp hr' with rfl
             exact hxopt)
         refine ⟨this.1, ?_⟩
         rw [this.2]
         simp [List.countP_cons, hxopt])

/-- Claim C3: in the additional section, a TSIG or SIG(0) record followed by
any further record (a second TSIG or SIG(0) included) makes `read_records`
fail with an error, and a successful read saw at most one TSIG/SIG(0) record
in its input — so a decoded Message carries at most one message signature and
never both a TSIG and a SIG(0). -/
theorem claim_c3_terminal_signature :
    (∀ (pre : List Record) (r : Record) (rest : List Record),
        isSignatureRecord r = true → rest ≠ [] →
        exceptIsError (readRecords (pre ++ r :: rest) true) = true) ∧
    (∀ (stream : List Record)
        (out : List Record × Option Edns × MessageSignature),
        readRecords stream true = .ok out →
        stream.countP isSignatureRecord ≤ 1) := by
  constructor
  · intro pre r rest hr hrest
    exact readRecordsLoop_terminal r rest hr hrest pre [] none .Unsigned
  · intro stream out h
    exact readRecordsLoop_ok_sig_count stream [] none out h

/-- Witness for claim C3: a TSIG followed by a plain record fails to decode,
and a stream that decodes has at most one signature record. -/
theorem claim_c3_terminal_signature_witness :
    exceptIsError (readRecords [exTsigRec, exPlainRec] true) = true ∧
    List.countP isSignatureRecord [exPlainRec, exTsigRec] ≤ 1 := by
  refine ⟨claim_c3_terminal_signature.1 [] exTsigRec [exPlainRec]
    (by decide) (by decide), ?_⟩
  exact claim_c3_terminal_signature.2 [exPlainRec, exTsigRec]
    ([exPlainRec], none, .Tsig exTsigRec) (by decide)

/-- Claim C4: decoding fails when the additional section holds more than one
OPT record, or when an OPT, SIG or TSIG record appears in a non-additional
section; a successful additional-section read leaves no OPT among the returned
records and carries the OPT, when present, in the extracted EDNS slot. -/
theorem claim_c4_opt_exclusivity :
    (∀ stream : List Record, 1 < stream.countP isOptRecord →
        exceptIsError (readRecords stream true) = true) ∧
    (∀ (stream : List Record) (r : Record), r ∈ stream →
        isAdditionalOnly r = true →
        exceptIsError (readRecords stream false) = true) ∧
    (∀ (stream : List Record)
        (out : List Record × Option Edns × MessageSignature),
        readRecords stream true = .ok out →
        (∀ r ∈ out.1, isOptRecord r = false) ∧
        (out.2.1.isSome ↔ stream.countP isOptRecord = 1)) := by
  refine ⟨?_, ?_, ?_⟩
  · intro stream hcount
    cases h : readRecords stream true with
    | error e => simp [exceptIsError]
    | ok out =>
      have := readRecordsLoop_ok_opt_count stream [] none out h
      simp only [Option.isSome_none, if_false, Nat.add_zero, ite_false] at this
      omega
  · intro stream r hr hbad
    exact readRecordsLoop_nonadditional_err stream [] none ⟨r, hr, hbad⟩
  · intro stream out h
    have h1 := readRecordsLoop_ok_no_opt stream [] none .Unsigned out h
      (by intro r hr; simp at hr)
    have h2 := readRecordsLoop_ok_opt_count stream [] none out h
    have h2' : stream.countP isOptRecord ≤ 1 := by
      simpa using h2
    refine ⟨h1.1, ?_⟩
    rw [h1.2]
    simp only [Option.isSome_none, Bool.false_eq_true, false_or]
    omega

/-- Witness for claim C4: two OPT records fail to decode, an OPT in a
non-additional section fails to decode, and a decoded stream with one OPT
yields it in the EDNS slot with no OPT among the records. -/
theorem claim_c4_opt_exclusivity_witness :
    exceptIsError (readRecords [exOptRec, exPlainRec, exOptRec] true) = true ∧
    exceptIsError (readRecords [exOptRec] false) = true ∧
    (∀ r ∈ [exPlainRec], isOptRecord r = false) := by
  refine ⟨claim_c4_opt_exclusivity.1 [exOptRec, exPlainRec, exOptRec]
      (by decide),
    claim_c4_opt_exclusivity.2.1 [exOptRec] exOptRec (by decide) (by decide),
    ?_⟩
  have h3 := claim_c4_opt_exclusivity.2.2 [exPlainRec, exOptRec]
    ([exPlainRec], some (ednsOfRecord exOptRec), .Unsigned) (by decide)
  exact h3.1

/-! ## Claim C7 -/

/-- The early `return`s of the singleton prelude of `insert` always return
false. -/
lemma insertSingletonStep_inl (rs : RecordSet) (record : Record) (b : Bool)
    (h : RecordSet.insertSingletonStep rs record = some (.inl b)) :
    b = false := by
  unfold RecordSet.insertSingletonStep at h
  repeat' split at h
  all_goals simp_all

/-- The singleton prelude of `insert` either keeps the set or clears its
records. -/
lemma insertSingletonStep_inr (rs : RecordSet) (record : Record)
    (rs₁ : RecordSet)
    (h : RecordSet.insertSingletonStep rs record = some (.inr rs₁)) :
    rs₁ = rs ∨ rs₁ = { rs with records := [] } := by
  unfold RecordSet.insertSingletonStep at h
  repeat' split at h
  all_goals
    first
    | (simp only [Option.some.injEq, Sum.inr.injEq] at h
       exact Or.inr h.symm)
    | (simp only [Option.some.injEq, Sum.inr.injEq] at h
       exact Or.inl h.symm)
    | exact absurd h (by simp)

/-- If the replace loop of `insert` runs to completion, the state is either
untouched with the flag passed through, or came out of a replacement that set
the serial and cleared the rrsigs. -/
lemma insertLoop_inr (record : Record) (serial : Nat) :
    ∀ (l : List Nat) (rs₀ : RecordSet) (flag : Bool) (rs₂ : RecordSet)
      (rep : Bool),
      RecordSet.insertLoop record serial l rs₀ flag = .inr (rs₂, rep) →
      (rs₂ = rs₀ ∧ rep = flag) ∨
      (rs₂.serial = serial ∧ rs₂.rrsigs = [] ∧ rep = true) := by
  intro l
  induction l with
  | nil =>
    intro rs₀ flag rs₂ rep h
    rw [RecordSet.insertLoop] at h
    simp only [Sum.inr.injEq, Prod.mk.injEq] at h
    exact Or.inl ⟨h.1.symm, h.2.symm⟩
  | cons i rest ih =>
    intro rs₀ flag rs₂ rep h
    rw [RecordSet.insertLoop] at h
    split at h
    · exact absurd h (by simp)
    · rcases ih _ _ _ _ h with ⟨rfl, rfl⟩ | hr
      · exact Or.inr ⟨rfl, rfl, rfl⟩
      · exact Or.inr ⟨hr.1, hr.2.1, hr.2.2⟩

/-- With pairwise-distinct record data, at most one index matches the inserted
data, so the replace loop of `insert` runs at most one iteration. -/
lemma toReplace_length_le_one (records : List Record) (d : RData)
    (h : (records.map Record.data).Nodup) :
    ((List.range records.length).filter
      fun i => (records.getD i default).data = d).length ≤ 1 := by
  by_contra hlen
  push_neg at hlen
  have hnd : ((List.range records.length).filter
      fun i => (records.getD i default).data = d).Nodup :=
    (List.nodup_range _).filter _
  rcases hm : (List.range records.length).filter
      (fun i => (records.getD i default).data = d) with _ | ⟨i, _ | ⟨j, rest⟩⟩
  · rw [hm] at hlen; simp at hlen
  · rw [hm] at hlen; simp at hlen
  · rw [hm] at hnd
    have hij : i ≠ j := by
      have := (List.nodup_cons.mp hnd).1
      intro hc
      exact this (by simp [hc])
    have hi : i ∈ (List.range records.length).filter
        (fun i => (records.getD i default).data = d) := by rw [hm]; simp
    have hj : j ∈ (List.range records.length).filter
        (fun i => (records.getD i default).data = d) := by rw [hm]; simp
    rw [List.mem_filter] at hi hj
    have hi1 : i < records.length := List.mem_range.mp hi.1
    have hj1 : j < records.length := List.mem_range.mp hj.1
    have hi2 : (records.getD i default).data = d := by simpa using hi.2
    have hj2 : (records.getD j default).data = d := by simpa using hj.2
    rw [List.getD_eq_getElem records default hi1] at hi2
    rw [List.getD_eq_getElem records default hj1] at hj2
    have him : i < (records.map Record.data).length := by simpa using hi1
    have hjm : j < (records.map Record.data).length := by simpa using hj1
    have hmap : (records.map Record.data).get ⟨i, him⟩ =
        (records.map Record.data).get ⟨j, hjm⟩ := by
      simp only [List.get_eq_getElem, List.getElem_map, hi2, hj2]
    have hfin := h.get_inj_iff.mp hmap
    exact hij (by simpa using hfin)

/-- Claim C7: after an `insert` or `remove` that returns true, the rrsig list
is empty and the serial equals the serial argument of the call; a call that
returns false leaves serial and rrsigs unchanged.  For `insert` the statement
carries the data-distinctness invariant of `records`, which every
API-constructed RecordSet satisfies (see
`RecordSet_new_nodup`, `insert_preserves_nodup` and
`remove_preserves_nodup`). -/
theorem claim_c7_mutation_tracking :
    (∀ (rs : RecordSet) (record : Record) (serial : Nat) (b : Bool)
        (rs' : RecordSet),
      (rs.records.map Record.data).Nodup →
      rs.insert record serial = some (b, rs') →
      (b = true → rs'.serial = serial ∧ rs'.rrsigs = []) ∧
      (b = false → rs'.serial = rs.serial ∧ rs'.rrsigs = rs.rrsigs)) ∧
    (∀ (rs : RecordSet) (record : Record) (serial : Nat) (b : Bool)
        (rs' : RecordSet),
      rs.remove record serial = some (b, rs') →
      (b = true → rs'.serial = serial ∧ rs'.rrsigs = []) ∧
      (b = false → rs'.serial = rs.serial ∧ rs'.rrsigs = rs.rrsigs)) := by
  constructor
  · intro rs record serial b rs' hnodup h
    unfold RecordSet.insert at h
    split at h
    · exact absurd h (by simp)
    split at h
    · exact absurd h (by simp)
    split at h
    case _ heq => exact absurd h (by simp)
    case _ b0 heq =>
      have hb0 : b0 = false := insertSingletonStep_inl rs record b0 heq
      subst hb0
      simp only [Option.some.injEq, Prod.mk.injEq] at h
      rcases h with ⟨rfl, rfl⟩
      exact ⟨fun hb => absurd hb (by simp), fun _ => ⟨rfl, rfl⟩⟩
    case _ rs₁ heq =>
      rcases insertSingletonStep_inr rs record rs₁ heq with hcase | hcase
      · -- the set was kept: at most one matching index
        subst hcase
        have hle := toReplace_length_le_one rs₁.records record.data hnodup
        match hm : (List.range rs₁.records.length).filter
            fun i => (rs₁.records.getD i default).data = record.data with
        | [] =>
          rw [hm] at h
          simp only [RecordSet.insertLoop, Bool.not_false, if_true] at h
          simp only [Option.some.injEq, Prod.mk.injEq] at h
          rcases h with ⟨rfl, rfl⟩
          exact ⟨fun _ => ⟨rfl, rfl⟩, fun hb => absurd hb (by simp)⟩
        | [i] =>
          rw [hm] at h
          by_cases hgd : rs₁.records.getD i default = record
          · simp only [RecordSet.insertLoop, if_pos hgd] at h
            simp only [Option.some.injEq, Prod.mk.injEq] at h
            rcases h with ⟨rfl, rfl⟩
            exact ⟨fun hb => absurd hb (by simp), fun _ => ⟨rfl, rfl⟩⟩
          · simp only [RecordSet.insertLoop, if_neg hgd, Bool.not_true,
              Bool.false_eq_true, if_false] at h
            simp only [Option.some.injEq, Prod.mk.injEq] at h
            rcases h with ⟨rfl, rfl⟩
            exact ⟨fun _ => ⟨rfl, rfl⟩, fun hb => absurd hb (by simp)⟩
        | i :: j :: rest =>
          rw [hm] at hle
          simp at hle
      · -- the records were cleared: no index can match
        subst hcase
        simp only [List.length_nil, List.range_zero, List.filter_nil] at h
        simp only [RecordSet.insertLoop, Bool.not_false, if_true] at h
        simp only [Option.some.injEq, Prod.mk.injEq] at h
        rcases h with ⟨rfl, rfl⟩
        exact ⟨fun _ => ⟨rfl, rfl⟩, fun hb => absurd hb (by simp)⟩
  · intro rs record serial b rs' h
    unfold RecordSet.remove at h
    split at h
    · exact absurd h (by simp)
    split at h
    · exact absurd h (by simp)
    have hcore :
        RecordSet.remove.removeCore rs record serial = some (b, rs') →
        (b = true → rs'.serial = serial ∧ rs'.rrsigs = []) ∧
        (b = false → rs'.serial = rs.serial ∧ rs'.rrsigs = rs.rrsigs) := by
      intro hc
      simp only [RecordSet.remove.removeCore] at hc
      split at hc <;>
        (simp only [Option.some.injEq, Prod.mk.injEq] at hc
         rcases hc with ⟨rfl, rfl⟩)
      · exact ⟨fun _ => ⟨rfl, rfl⟩, fun hb => by simp at hb⟩
      · exact ⟨fun hb => by simp at hb, fun _ => ⟨rfl, rfl⟩⟩
    split at h
    all_goals
      first
      | exact hcore h
      | (split at h
         · simp only [Option.some.injEq, Prod.mk.injEq] at h
           rcases h with ⟨rfl, rfl⟩
           exact ⟨fun hb => by simp at hb, fun _ => ⟨rfl, rfl⟩⟩
         · exact hcore h)
      | (simp only [Option.some.injEq, Prod.mk.injEq] at h
         rcases h with ⟨rfl, rfl⟩
         exact ⟨fun hb => by simp at hb, fun _ => ⟨rfl, rfl⟩⟩)

/-- The record set built by `RecordSet::new` satisfies the data-distinctness
invariant carried by claim C7. -/
lemma RecordSet_new_nodup (name : Name) (rt : RecordType) (serial : Nat) :
    ((RecordSet.new name rt serial).records.map Record.data).Nodup := by
  simp [RecordSet.new]

/-- `remove` preserves the data-distinctness invariant of `records`. -/
lemma remove_preserves_nodup (rs : RecordSet) (record : Record) (serial : Nat)
    (b : Bool) (rs' : RecordSet)
    (hnodup : (rs.records.map Record.data).Nodup)
    (h : rs.remove record serial = some (b, rs')) :
    (rs'.records.map Record.data).Nodup := by
  unfold RecordSet.remove at h
  split at h
  · exact absurd h (by simp)
  split at h
  · exact absurd h (by simp)
  have hcore :
      RecordSet.remove.removeCore rs record serial = some (b, rs') →
      (rs'.records.map Record.data).Nodup := by
    intro hc
    simp only [RecordSet.remove.removeCore] at hc
    split at hc <;>
      (simp only [Option.some.injEq, Prod.mk.injEq] at hc
       rcases hc with ⟨rfl, rfl⟩) <;>
      exact ((List.filter_sublist _).map Record.data).nodup hnodup
  split at h
  all_goals
    first
    | exact hcore h
    | (split at h
       · simp only [Option.some.injEq, Prod.mk.injEq] at h
         rcases h with ⟨rfl, rfl⟩
         exact hnodup
       · exact hcore h)
    | (simp only [Option.some.injEq, Prod.mk.injEq] at h
       rcases h with ⟨rfl, rfl⟩
       exact hnodup)

/-- `insert` preserves the data-distinctness invariant of `records`. -/
lemma insert_preserves_nodup (rs : RecordSet) (record : Record) (serial : Nat)
    (b : Bool) (rs' : RecordSet)
    (hnodup : (rs.records.map Record.data).Nodup)
    (h : rs.insert record serial = some (b, rs')) :
    (rs'.records.map Record.data).Nodup := by
  unfold RecordSet.insert at h
  split at h
  · exact absurd h (by simp)
  split at h
  · exact absurd h (by simp)
  split at h
  case _ heq => exact absurd h (by simp)
  case _ b0 heq =>
    simp only [Option.some.injEq, Prod.mk.injEq] at h
    rcases h with ⟨rfl, rfl⟩
    exact hnodup
  case _ rs₁ heq =>
    rcases insertSingletonStep_inr rs record rs₁ heq with hcase | hcase
    · subst hcase
      have hle := toReplace_length_le_one rs₁.records record.data hnodup
      match hm : (List.range rs₁.records.length).filter
          fun i => (rs₁.records.getD i default).data = record.data with
      | [] =>
        have hnotin : record.data ∉ rs₁.records.map Record.data := by
          intro hin
          rcases List.mem_map.mp hin with ⟨r, hrmem, hrdata⟩
          rcases List.getElem_of_mem hrmem with ⟨k, hk, hkeq⟩
          have hkfil : k ∈ (List.range rs₁.records.length).filter
              (fun i => (rs₁.records.getD i default).data = record.data) := by
            rw [List.mem_filter]
            refine ⟨List.mem_range.mpr hk, ?_⟩
            have hgd : rs₁.records.getD k default = r := by
              rw [List.getD_eq_getElem _ _ hk, hkeq]
            exact decide_eq_true (by rw [hgd, hrdata])
          rw [hm] at hkfil
          simp at hkfil
        rw [hm] at h
        simp only [RecordSet.insertLoop, Bool.not_false, if_true] at h
        simp only [Option.some.injEq, Prod.mk.injEq] at h
        rcases h with ⟨rfl, rfl⟩
        simp only [List.map_append, List.map_cons, List.map_nil]
        rw [← List.concat_eq_append]
        exact List.Nodup.concat hnotin hnodup
      | [i] =>
        have hifil : i ∈ (List.range rs₁.records.length).filter
            (fun i => (rs₁.records.getD i default).data = record.data) := by
          rw [hm]; simp
        rw [List.mem_filter] at hifil
        have hilt : i < rs₁.records.length := List.mem_range.mp hifil.1
        have hidata : (rs₁.records.getD i default).data = record.data := by
          simpa using hifil.2
        rw [List.getD_eq_getElem _ _ hilt] at hidata
        rw [hm] at h
        by_cases hgd : rs₁.records.getD i default = record
        · simp only [RecordSet.insertLoop, if_pos hgd] at h
          simp only [Option.some.injEq, Prod.mk.injEq] at h
          rcases h with ⟨rfl, rfl⟩
          exact hnodup
        · simp only [RecordSet.insertLoop, if_neg hgd, Bool.not_true,
            Bool.false_eq_true, if_false] at h
          simp only [Option.some.injEq, Prod.mk.injEq] at h
          rcases h with ⟨rfl, rfl⟩
          simp only [RecordSet.swapRemove, List.getLast?_concat]
          rw [List.set_append_left _ _ hilt, List.dropLast_concat, List.map_set]
          have hset : (rs₁.records.map Record.data).set i record.data =
              rs₁.records.map Record.data := by
            apply List.ext_getElem?
            intro j
            rw [List.getElem?_set]
            split
            · next hij =>
              subst hij
              simp [hilt, ← hidata]
            · rfl
          rw [hset]
          exact hnodup
      | i :: j :: rest =>
        rw [hm] at hle
        simp at hle
    · subst hcase
      simp only [List.length_nil, List.range_zero, List.filter_nil] at h
      simp only [RecordSet.insertLoop, Bool.not_false, if_true] at h
      simp only [Option.some.injEq, Prod.mk.injEq] at h
      rcases h with ⟨rfl, rfl⟩
      simp

/-- Witness for claim C7: inserting a second NS record succeeds, sets the
serial to the argument and clears the rrsigs. -/
theorem claim_c7_mutation_tracking_witness :
    exNsSet.insert exNsRec2 4 = some (true, exNsSetIns) ∧
    exNsSetIns.serial = 4 ∧ exNsSetIns.rrsigs = [] := by
  have heq : exNsSet.insert exNsRec2 4 = some (true, exNsSetIns) := by decide
  have h := (claim_c7_mutation_tracking.1 exNsSet exNsRec2 4 true exNsSetIns
    (by decide) heq).1 rfl
  exact ⟨heq, h.1, h.2⟩

/-! ## Claim C1 -/

/-- The EDNS-to-OPT-record conversion round-trips when the EDNS fields are in
their wire ranges. -/
lemma ednsOfRecord_recordOfEdns (e : Edns) (hv : e.version < 2 ^ 8)
    (hz : e.zFlags < 2 ^ 15) :
    ednsOfRecord (recordOfEdns e) = e := by
  rcases e with ⟨rh, v, d, z, mp, o⟩
  simp only at hv hz
  have hite : (if d = true then (2 : Nat) ^ 15 else 0) = d.toNat * 2 ^ 15 := by
    cases d <;> simp
  simp only [ednsOfRecord, recordOfEdns, hite, Edns.mk.injEq]
  set t := rh * 2 ^ 24 + v % 2 ^ 8 * 2 ^ 16 + d.toNat * 2 ^ 15 + z % 2 ^ 15
    with ht
  have hd2 : d.toNat < 2 := by cases d <;> simp
  refine ⟨?_, ?_, ?_, ?_, trivial, trivial⟩
  · omega
  · omega
  · have hdt : t / 2 ^ 15 % 2 = d.toNat := by omega
    rw [hdt]
    cases d <;> simp
  · omega

/-- Reading a stream of ordinary records in a non-additional section succeeds
and appends them all. -/
lemma readRecordsLoop_plain_nonadd (l : List Record)
    (hl : ∀ r ∈ l, isAdditionalOnly r = false) :
    ∀ (acc : List Record) (edns : Option Edns),
      readRecordsLoop false l acc edns .Unsigned = .ok (acc ++ l, edns, .Unsigned) := by
  induction l with
  | nil => intro acc edns; simp [readRecordsLoop]
  | cons x rest ih =>
    intro acc edns
    have hx : ¬(x.recordType = RecordType.OPT ∨ x.recordType = RecordType.SIG ∨
        x.recordType = RecordType.TSIG) := by
      have := hl x (by simp)
      simpa [isAdditionalOnly] using this
    rw [readRecordsLoop]
    rw [if_neg (by simp), if_neg (by simp [hx]), if_pos (by simp)]
    rw [ih (fun r hr => hl r (by simp [hr])) (acc ++ [x]) edns]
    simp

/-- Reading a stream of ordinary records in the additional section just
accumulates them, continuing with whatever follows. -/
lemma readRecordsLoop_skip_plain (l : List Record)
    (hl : ∀ r ∈ l, isAdditionalOnly r = false) :
    ∀ (tail acc : List Record) (edns : Option Edns),
      readRecordsLoop true (l ++ tail) acc edns .Unsigned =
        readRecordsLoop true tail (acc ++ l) edns .Unsigned := by
  induction l with
  | nil => intro tail acc edns; simp
  | cons x rest ih =>
    intro tail acc edns
    have hx : ¬(x.recordType = RecordType.OPT ∨ x.recordType = RecordType.SIG ∨
        x.recordType = RecordType.TSIG) := by
      have := hl x (by simp)
      simpa [isAdditionalOnly] using this
    rw [List.cons_append, readRecordsLoop]
    rw [if_neg (by simp), if_neg (by simp [hx]), if_neg (by simp)]
    cases hxt : x.recordType
    case OPT => exact absurd (by simp [hxt]) hx
    case SIG => exact absurd (by simp [hxt]) hx
    case TSIG => exact absurd (by simp [hxt]) hx
    all_goals
      simp only [hxt]
      rw [ih (fun r hr => hl r (by simp [hr])) tail (acc ++ [x]) edns]
      simp

/-- Claim C1: for every well-formed Message, decoding the encoding yields the
message back with the header counts canonicalized to the counts actually
emitted per section (the EDNS OPT and signature records counting toward the
additional section) and the EDNS high response-code bits merged back into the
header response code; in particular the decoded header counts are the emitted
section sizes regardless of the counts the caller had set. -/
theorem claim_c1_roundtrip (m : Message) (hwf : m.wellFormed) :
    Message.read m.emit = .ok m.canonicalized ∧
    m.canonicalized.header.queryCount = m.queries.length ∧
    m.canonicalized.header.answerCount = m.answers.length ∧
    m.canonicalized.header.authorityCount = m.authorities.length ∧
    m.canonicalized.header.additionalCount = m.additionals.length +
      (match m.edns with | some _ => 1 | none => 0) +
      (match m.signature with | .Unsigned => 0 | _ => 1) := by
  obtain ⟨hans, haut, hadd, hsig, hrc, hedns, hq16, ha16, hn16, hd16⟩ := hwf
  refine ⟨?_, rfl, rfl, rfl, rfl⟩
  rcases m with ⟨hd, Q, A, N, D, sig, ed⟩
  dsimp only at hans haut hadd hsig hrc hedns hq16 ha16 hn16 hd16 ⊢
  have hreadA : readRecords A false = .ok (A, none, .Unsigned) := by
    have := readRecordsLoop_plain_nonadd A hans [] none
    simpa [readRecords] using this
  have hreadN : readRecords N false = .ok (N, none, .Unsigned) := by
    have := readRecordsLoop_plain_nonadd N haut [] none
    simpa [readRecords] using this
  rcases ed with _ | e <;> rcases sig with _ | s0 | ts
  case none.Unsigned =>
    have hreadD : readRecords (D ++ ([] : List Record) ++ []) true
        = .ok (D, none, .Unsigned) := by
      have := readRecordsLoop_skip_plain D hadd [] [] none
      simpa [readRecords] using this
    simp only [Message.emit, emitMessageParts, Message.read, Message.canonicalized,
      Message.emittedCounts, updateHeaderCounts, Header.toWire, ne_eq,
      reduceCtorEq, not_false_eq_true, if_true, if_false, List.append_nil]
    rw [if_neg (by simp), if_neg (by simp [List.length_append]; omega)]
    rw [List.append_assoc, List.take_left, List.drop_left, List.take_left,
      List.drop_left, List.take_length]
    rw [hreadA, hreadN]
    rw [show D ++ ([] : List Record) ++ [] = D by simp] at hreadD
    rw [hreadD]
    simp only [Except.ok.injEq, Message.mk.injEq, Header.mk.injEq,
      List.take_length, true_and, and_true]
    have hrc16 : hd.responseCode < 16 := hedns
    omega
  case none.Sig0 =>
    have hs0 : s0.recordType = RecordType.SIG := hsig
    have hrc16 : hd.responseCode < 16 := hedns
    have htail : readRecordsLoop true [s0] D none .Unsigned
        = .ok (D, none, .Sig0 s0) := by
      simp [readRecordsLoop, hs0]
    have hreadD : readRecords (D ++ [s0]) true = .ok (D, none, .Sig0 s0) := by
      simp only [readRecords]
      rw [readRecordsLoop_skip_plain D hadd [s0] [] none]
      simpa using htail
    simp only [Message.emit, emitMessageParts, Message.read,
      Message.canonicalized, Message.emittedCounts, updateHeaderCounts,
      Header.toWire, Header.mergeResponseCode, ne_eq, reduceCtorEq,
      not_false_eq_true, if_true, if_false, List.append_nil, List.append_assoc,
      List.singleton_append]
    rw [if_neg (by simp), if_neg (by simp [List.length_append]; omega)]
    rw [List.take_left, List.drop_left, List.take_left, List.drop_left,
      List.take_length]
    rw [hreadA, hreadN, hreadD]
    simp only [Except.ok.injEq, Message.mk.injEq, Header.mk.injEq,
      List.take_length, List.length_append, List.length_cons, List.length_nil,
      true_and, and_true]
    omega
  case none.Tsig =>
    have hts : ts.recordType = RecordType.TSIG := hsig
    have hrc16 : hd.responseCode < 16 := hedns
    have htail : readRecordsLoop true [ts] D none .Unsigned
        = .ok (D, none, .Tsig ts) := by
      simp [readRecordsLoop, hts]
    have hreadD : readRecords (D ++ [ts]) true = .ok (D, none, .Tsig ts) := by
      simp only [readRecords]
      rw [readRecordsLoop_skip_plain D hadd [ts] [] none]
      simpa using htail
    simp only [Message.emit, emitMessageParts, Message.read,
      Message.canonicalized, Message.emittedCounts, updateHeaderCounts,
      Header.toWire, Header.mergeResponseCode, ne_eq, reduceCtorEq,
      not_false_eq_true, if_true, if_false, List.append_nil, List.append_assoc,
      List.singleton_append]
    rw [if_neg (by simp), if_neg (by simp [List.length_append]; omega)]
    rw [List.take_left, List.drop_left, List.take_left, List.drop_left,
      List.take_length]
    rw [hreadA, hreadN, hreadD]
    simp only [Except.ok.injEq, Message.mk.injEq, Header.mk.injEq,
      List.take_length, List.length_append, List.length_cons, List.length_nil,
      true_and, and_true]
    omega
  case some.Unsigned =>
    have hv : e.version < 2 ^ 8 := hedns.2.1
    have hz : e.zFlags < 2 ^ 15 := hedns.2.2
    have hrh : e.rcodeHigh = hd.responseCode / 16 := hedns.1
    have he' : ({ e with rcodeHigh := hd.responseCode / 16 } : Edns) = e := by
      rw [← hrh]
    have hoptTypeE : (recordOfEdns e).recordType = RecordType.OPT := rfl
    have hrtE : ednsOfRecord (recordOfEdns e) = e :=
      ednsOfRecord_recordOfEdns e hv hz
    have htail : readRecordsLoop true
        [recordOfEdns e] D none
        .Unsigned = .ok (D, some e, .Unsigned) := by
      simp [readRecordsLoop, hoptTypeE, hrtE]
    have hreadD : readRecords
        (D ++ [recordOfEdns e]) true
        = .ok (D, some e, .Unsigned) := by
      simp only [readRecords]
      rw [readRecordsLoop_skip_plain D hadd _ [] none]
      simpa using htail
    simp only [Message.emit, emitMessageParts, Message.read,
      Message.canonicalized, Message.emittedCounts, updateHeaderCounts,
      Header.toWire, Header.mergeResponseCode, he', ne_eq, reduceCtorEq,
      not_false_eq_true, if_true, if_false, List.append_nil, List.append_assoc,
      List.singleton_append]
    rw [if_neg (by simp), if_neg (by simp [List.length_append]; omega)]
    rw [List.take_left, List.drop_left, List.take_left, List.drop_left,
      List.take_length]
    rw [hreadA, hreadN, hreadD]
    simp only [Except.ok.injEq, Message.mk.injEq, Header.mk.injEq,
      List.take_length, List.length_append, List.length_cons, List.length_nil,
      true_and, and_true]
    omega
  case some.Sig0 =>
    have hs0 : s0.recordType = RecordType.SIG := hsig
    have hv : e.version < 2 ^ 8 := hedns.2.1
    have hz : e.zFlags < 2 ^ 15 := hedns.2.2
    have hrh : e.rcodeHigh = hd.responseCode / 16 := hedns.1
    have he' : ({ e with rcodeHigh := hd.responseCode / 16 } : Edns) = e := by
      rw [← hrh]
    have hoptTypeE : (recordOfEdns e).recordType = RecordType.OPT := rfl
    have hrtE : ednsOfRecord (recordOfEdns e) = e :=
      ednsOfRecord_recordOfEdns e hv hz
    have htail : readRecordsLoop true
        [recordOfEdns e, s0] D none
        .Unsigned = .ok (D, some e, .Sig0 s0) := by
      simp [readRecordsLoop, hoptTypeE, hs0, hrtE]
    have hreadD : readRecords
        (D ++ [recordOfEdns e, s0])
        true = .ok (D, some e, .Sig0 s0) := by
      simp only [readRecords]
      rw [readRecordsLoop_skip_plain D hadd _ [] none]
      simpa using htail
    simp only [Message.emit, emitMessageParts, Message.read,
      Message.canonicalized, Message.emittedCounts, updateHeaderCounts,
      Header.toWire, Header.mergeResponseCode, he', ne_eq, reduceCtorEq,
      not_false_eq_true, if_true, if_false, List.append_nil, List.append_assoc,
      List.singleton_append]
    rw [if_neg (by simp), if_neg (by simp [List.length_append]; omega)]
    rw [List.take_left, List.drop_left, List.take_left, List.drop_left,
      List.take_length]
    rw [hreadA, hreadN, hreadD]
    simp only [Except.ok.injEq, Message.mk.injEq, Header.mk.injEq,
      List.take_length, List.length_append, List.length_cons, List.length_nil,
      true_and, and_true]
    omega
  case some.Tsig =>
    have hts : ts.recordType = RecordType.TSIG := hsig
    have hv : e.version < 2 ^ 8 := hedns.2.1
    have hz : e.zFlags < 2 ^ 15 := hedns.2.2
    have hrh : e.rcodeHigh = hd.responseCode / 16 := hedns.1
    have he' : ({ e with rcodeHigh := hd.responseCode / 16 } : Edns) = e := by
      rw [← hrh]
    have hoptTypeE : (recordOfEdns e).recordType = RecordType.OPT := rfl
    have hrtE : ednsOfRecord (recordOfEdns e) = e :=
      ednsOfRecord_recordOfEdns e hv hz
    have htail : readRecordsLoop true
        [recordOfEdns e, ts] D none
        .Unsigned = .ok (D, some e, .Tsig ts) := by
      simp [readRecordsLoop, hoptTypeE, hts, hrtE]
    have hreadD : readRecords
        (D ++ [recordOfEdns e, ts])
        true = .ok (D, some e, .Tsig ts) := by
      simp only [readRecords]
      rw [readRecordsLoop_skip_plain D hadd _ [] none]
      simpa using htail
    simp only [Message.emit, emitMessageParts, Message.read,
      Message.canonicalized, Message.emittedCounts, updateHeaderCounts,
      Header.toWire, Header.mergeResponseCode, he', ne_eq, reduceCtorEq,
      not_false_eq_true, if_true, if_false, List.append_nil, List.append_assoc,
      List.singleton_append]
    rw [if_neg (by simp), if_neg (by simp [List.length_append]; omega)]
    rw [List.take_left, List.drop_left, List.take_left, List.drop_left,
      List.take_length]
    rw [hreadA, hreadN, hreadD]
    simp only [Except.ok.injEq, Message.mk.injEq, Header.mk.injEq,
      List.take_length, List.length_append, List.length_cons, List.length_nil,
      true_and, and_true]
    omega

/-- Witness for claim C1: a message with 0 queries, 1 answer, 1 authority and
1 additional record whose header declares counts 1/5/5/0 decodes, after
encoding, to the message with header counts 0/1/1/1. -/
theorem claim_c1_roundtrip_witness :
    Message.read exMsgWrongCounts.emit = .ok exMsgWrongCounts.canonicalized ∧
    exMsgWrongCounts.canonicalized.header.queryCount = 0 ∧
    exMsgWrongCounts.canonicalized.header.answerCount = 1 ∧
    exMsgWrongCounts.canonicalized.header.authorityCount = 1 ∧
    exMsgWrongCounts.canonicalized.header.additionalCount = 1 := by
  have hwf : exMsgWrongCounts.wellFormed := by
    refine ⟨?_, ?_, ?_, ?_, ?_, ?_, ?_, ?_, ?_, ?_⟩ <;>
      first
      | trivial
      | exact (by decide : (2 : Nat) < 16)
  have h := claim_c1_roundtrip exMsgWrongCounts hwf
  exact ⟨h.1, by simpa using h.2.1, by simpa using h.2.2.1,
    by simpa using h.2.2.2.1, by simpa using h.2.2.2.2⟩

end TrustDns
